import Mathlib

/-!
Shallow embedding of the analysis core of `src/analyze.py` (theme-intensity
normalization, theme-trend smoothing, holdings-history statistics,
holding-change detection, the multi-factor candidate scorer
`estimate_candidates`, and the rolling backtest `run_backtest`), together
with theorems settling the specification claims about it.

Modelling conventions:
* Python `float` arithmetic is modelled over `ℚ`; `round(x, n)` is modelled
  as rounding `x·10^n` to the nearest integer.  All constants appearing in
  the source (0.2, 0.7, 1.3, …) are exact decimal rationals, so no claim
  below depends on float representation or tie-breaking edge cases.
* Python `dict`s are modelled as association lists whose keys are unique by
  construction (insertion preserves the first position of a key, as CPython
  does); `collections.Counter` likewise.
* Python `set`s only ever flow into outputs as lists whose iteration order
  is interpreter-internal; they are modelled as first-occurrence
  deduplicated lists, which fixes one deterministic order for the same
  contents.
* The configuration module (`THEME_KEYWORDS`, `EVALUATION_ASPECTS`,
  `CANDIDATE_UNIVERSE`, `SCORE_WEIGHTS`, `BACKTEST_CONFIG`) holds plain data
  supplied once at process start; it is modelled as an explicit `Config`
  argument.
-/

/-- Python's substring test `needle in hay` on strings. -/
def substrB (needle hay : String) : Bool :=
  hay.toList.tails.any (fun t => needle.toList.isPrefixOf t)

/-- Auxiliary loop for `dedupFirst`. -/
def dedupAux (seen : List String) : List String → List String
  | [] => []
  | x :: xs => if seen.contains x then dedupAux seen xs else x :: dedupAux (x :: seen) xs

/-- First-occurrence deduplication: the key sequence of a Python dict (or the
contents of a set) built by successive insertion. -/
def dedupFirst (l : List String) : List String := dedupAux [] l

/-- Association-list lookup, i.e. Python `d.get(k)` / `k in d`. -/
def afind {κ α : Type} [BEq κ] (d : List (κ × α)) (k : κ) : Option α :=
  (d.find? (fun p => p.1 == k)).map Prod.snd

/-- Python `d.get(k, v)`. -/
def agetD {κ α : Type} [BEq κ] (d : List (κ × α)) (k : κ) (v : α) : α :=
  (afind d k).getD v

/-- Python `d[k] = v` on a dict: overwrite in place if the key exists
(keeping its original position), else append. -/
def dinsert {κ α : Type} [BEq κ] (d : List (κ × α)) (k : κ) (v : α) : List (κ × α) :=
  if d.any (fun p => p.1 == k) then d.map (fun p => if p.1 == k then (k, v) else p)
  else d ++ [(k, v)]

/-- Python `Counter[k] += 1`. -/
def cadd (c : List (String × ℕ)) (k : String) : List (String × ℕ) :=
  if c.any (fun p => p.1 == k) then c.map (fun p => if p.1 == k then (p.1, p.2 + 1) else p)
  else c ++ [(k, 1)]

/-- Python `Counter.get(k, 0)` / `Counter[k]` read access. -/
def cget (c : List (String × ℕ)) (k : String) : ℕ := agetD c k 0

/-- Python `round(x, nd)` modelled over `ℚ`. -/
def roundTo (nd : ℕ) (x : ℚ) : ℚ := (round (x * 10 ^ nd) : ℤ) / 10 ^ nd

/-- Code-point comparison of strings, as Python's `<` on `str`. -/
def charListLt : List Char → List Char → Bool
  | [], [] => false
  | [], _ :: _ => true
  | _ :: _, [] => false
  | a :: as, b :: bs =>
    if a.val < b.val then true else if b.val < a.val then false else charListLt as bs

/-- Python string ordering. -/
def strLtB (a b : String) : Bool := charListLt a.toList b.toList

/-- Insert into an ascending list (used to model Python `sorted` on a set of
distinct strings, whose result does not depend on stability). -/
def insertAsc (x : String) : List String → List String
  | [] => [x]
  | y :: ys => if strLtB x y then x :: y :: ys else y :: insertAsc x ys

/-- Python `sorted` on a list of distinct strings. -/
def sortAsc : List String → List String
  | [] => []
  | x :: xs => insertAsc x (sortAsc xs)

/-- One holding row `{rank, name, weight, sector}`; a missing `sector` key is
read back by the source as `"その他"`, missing `name` as `""`. -/
structure Holding where
  rank : ℤ
  name : String
  weight : String
  sector : String
deriving DecidableEq

/-- One monthly report, restricted to the fields the analysis core reads. -/
structure Report where
  report_month : String
  sections : List (String × String)
  signals_positive : List String
  signals_cautious : List String
  theme_keywords : List (String × ℤ)
  holdings : List Holding
deriving DecidableEq

/-- The all-defaults report a `.get`-style access would synthesize. -/
def emptyReport : Report := ⟨"", [], [], [], [], []⟩

/-- Holdings with a truthy (non-empty) name, as filtered throughout the source. -/
def validHoldings (r : Report) : List Holding := r.holdings.filter (fun h => h.name != "")

/-- `sum(d.get("count", 0) for d in kw_data.values())`. -/
def sumCounts (r : Report) : ℤ := (r.theme_keywords.map (fun p => p.2)).sum

/-- Output row of `compute_theme_intensity`. -/
structure ThemeIntensityRecord where
  month : String
  scores : List (String × ℚ)
  total_keywords : ℤ
deriving DecidableEq

/-- Per-report body of the `compute_theme_intensity` loop. -/
def intensityRecord (report : Report) : ThemeIntensityRecord :=
  let raw_total := sumCounts report
  let total_keywords : ℤ := if raw_total = 0 then 1 else raw_total
  { month := report.report_month
    scores := report.theme_keywords.map
      (fun p => (p.1, roundTo 2 ((p.2 : ℚ) / (total_keywords : ℚ) * 100)))
    total_keywords := total_keywords }

/-- `compute_theme_intensity` (analyze.py lines 28-58). -/
def compute_theme_intensity (reports : List Report) : List ThemeIntensityRecord :=
  reports.map intensityRecord

/-- One point of a theme-trend series. -/
structure TrendPoint where
  month : String
  value : ℚ
  ma : ℚ
  delta : ℚ
  direction : String
deriving DecidableEq

/-- The per-theme value series (`item["scores"].get(theme, 0)`). -/
def themeValues (ti : List ThemeIntensityRecord) (theme : String) : List ℚ :=
  ti.map (fun item => agetD item.scores theme 0)

/-- Left-truncated moving average: `ma[i] = mean(values[max(0, i-window+1) .. i])`. -/
def movingAvg (values : List ℚ) (window : ℕ) : List ℚ :=
  (List.range values.length).map (fun i =>
    let start := i + 1 - window
    ((values.drop start).take (i + 1 - start)).sum / ((i + 1 - start : ℕ) : ℚ))

/-- `deltas = [0] + [ma[i] - ma[i-1] for i in range(1, len(ma))]` (unrounded). -/
def trendDeltas (values : List ℚ) (window : ℕ) : List ℚ :=
  let ma := movingAvg values window
  0 :: List.zipWith (fun a b => a - b) ma.tail ma

/-- The direction label computed from an (unrounded) delta. -/
def directionOf (d : ℚ) : String :=
  if (0.5 : ℚ) < d then "up" else if d < (-0.5 : ℚ) then "down" else "stable"

/-- Union of all themes ever seen (Python uses a set; content is what matters
downstream, first-encounter order is fixed here). -/
def themesOfIntensity (ti : List ThemeIntensityRecord) : List String :=
  dedupFirst (ti.flatMap (fun item => item.scores.map Prod.fst))

/-- The trend series built for one theme. -/
def trendSeries (ti : List ThemeIntensityRecord) (window : ℕ) (theme : String) :
    List TrendPoint :=
  let values := themeValues ti theme
  let months := ti.map (fun item => item.month)
  let ma := movingAvg values window
  let deltas := trendDeltas values window
  (List.range months.length).map (fun i =>
    { month := months.getD i ""
      value := roundTo 2 (values.getD i 0)
      ma := roundTo 2 (ma.getD i 0)
      delta := roundTo 2 (deltas.getD i 0)
      direction := directionOf (deltas.getD i 0) })

/-- `compute_theme_trend` (analyze.py lines 61-94); `window` defaults to 3 at
every call site. -/
def compute_theme_trend (theme_intensity : List ThemeIntensityRecord) (window : ℕ) :
    List (String × List TrendPoint) :=
  (themesOfIntensity theme_intensity).map
    (fun theme => (theme, trendSeries theme_intensity window theme))

/-- One `(month, rank, weight)` appearance of a stock. -/
structure HistPoint where
  month : String
  rank : ℤ
  weight : String
deriving DecidableEq

/-- Per-stock statistics produced by `analyze_holdings_history`. -/
structure StockStats where
  total_appearances : ℕ
  appearance_rate : ℚ
  avg_rank : ℚ
  best_rank : ℤ
  consecutive_months : ℕ
  history : List HistPoint
  rank_volatility : ℚ
deriving DecidableEq

/-- The stocks ever appearing, in first-appearance order (insertion order of
the Python `defaultdict`). -/
def stockNames (reports : List Report) : List String :=
  dedupFirst (reports.flatMap (fun r => (validHoldings r).map (fun h => h.name)))

/-- The appearance history collected for one stock name. -/
def stockHist (reports : List Report) (name : String) : List HistPoint :=
  reports.flatMap (fun r => (validHoldings r).filterMap (fun h =>
    if h.name == name then some ⟨r.report_month, h.rank, h.weight⟩ else none))

/-- `min(ranks)`; the 0 default is unreachable, every analysed stock has at
least one appearance. -/
def listMinInt : List ℤ → ℤ
  | [] => 0
  | x :: xs => xs.foldl min x

/-- Trailing months (scanning backward) in which the stock was present,
stopping at the first absence. -/
def consecutiveFromEnd (all_months : List String) (present : List String) : ℕ :=
  ((all_months.reverse).takeWhile (fun m => present.contains m)).length

/-- Per-stock body of the `analyze_holdings_history` loop.  `avg_rank`
divides by the history length exactly as the source does (the empty case is
unreachable: analysed names come from `stockNames`). -/
def statsFor (reports : List Report) (name : String) : StockStats :=
  let history := stockHist reports name
  let months_present := history.length
  let ranks := history.map (fun h => h.rank)
  let total_months := reports.length
  let all_months := reports.map (fun r => r.report_month)
  let present_months := history.map (fun h => h.month)
  let rank_changes : List ℤ := List.zipWith (fun a b => a - b) ranks.tail ranks
  { total_appearances := months_present
    appearance_rate := roundTo 1 ((months_present : ℚ) / ((max total_months 1 : ℕ) : ℚ) * 100)
    avg_rank := roundTo 1 ((ranks.map (fun z => (z : ℚ))).sum / (ranks.length : ℚ))
    best_rank := listMinInt ranks
    consecutive_months := consecutiveFromEnd all_months present_months
    history := history
    rank_volatility := roundTo 2
      ((rank_changes.map (fun z => |(z : ℚ)|)).sum / ((max rank_changes.length 1 : ℕ) : ℚ)) }

/-- `analyze_holdings_history` (analyze.py lines 101-156). -/
def analyze_holdings_history (reports : List Report) : List (String × StockStats) :=
  (stockNames reports).map (fun n => (n, statsFor reports n))

/-- A `{name, change}` rank-move entry. -/
structure RankMove where
  name : String
  change : ℤ
deriving DecidableEq

/-- Month-over-month change record. -/
structure ChangeRecord where
  month : String
  new_entries : List String
  removed : List String
  rank_up : List RankMove
  rank_down : List RankMove
deriving DecidableEq

/-- `{h["name"]: h["rank"] for h in holdings if h.get("name")}`. -/
def holdingsDict (hs : List Holding) : List (String × ℤ) :=
  hs.foldl (fun d h => if h.name != "" then dinsert d h.name h.rank else d) []

/-- Body of the `detect_holding_changes` loop for `i > 0`. -/
def changeAt (prevR curR : Report) : ChangeRecord :=
  let current := holdingsDict curR.holdings
  let previous := holdingsDict prevR.holdings
  { month := curR.report_month
    new_entries := (current.map Prod.fst).filter (fun n => !(previous.any (fun p => p.1 == n)))
    removed := (previous.map Prod.fst).filter (fun n => !(current.any (fun p => p.1 == n)))
    rank_up := current.filterMap (fun p =>
      match afind previous p.1 with
      | some rp => if 0 < rp - p.2 then some ⟨p.1, rp - p.2⟩ else none
      | none => none)
    rank_down := current.filterMap (fun p =>
      match afind previous p.1 with
      | some rp => if rp - p.2 < 0 then some ⟨p.1, rp - p.2⟩ else none
      | none => none) }

/-- `detect_holding_changes` (analyze.py lines 159-202). -/
def detect_holding_changes (reports : List Report) : List ChangeRecord :=
  (List.range reports.length).map (fun i =>
    if i = 0 then
      let r := reports.getD 0 emptyReport
      { month := r.report_month
        new_entries := (holdingsDict r.holdings).map Prod.fst
        removed := []
        rank_up := []
        rank_down := [] }
    else changeAt (reports.getD (i - 1) emptyReport) (reports.getD i emptyReport))

/-- The immutable configuration module (`config.py`): keyword lexicons,
reference candidate universe (`name`, `sector` pairs), scoring weight table
and backtest parameters. -/
structure Config where
  theme_keywords : List (String × List String)
  evaluation_aspects : List (String × List String)
  candidate_universe : List (String × String)
  score_weights : List (String × ℚ)
  min_training_months : ℕ
  top_k_values : List ℕ
deriving DecidableEq

/-- The six factor scores stored in `score_components` (fixed string keys in
the source). -/
structure ScoreBreakdown where
  theme_match : ℚ
  past_frequency : ℚ
  description_sim : ℚ
  sector_trend : ℚ
  signal_match : ℚ
  cycle_tendency : ℚ
deriving DecidableEq

/-- `score_components.get(key, 0)`. -/
def ScoreBreakdown.get (b : ScoreBreakdown) (key : String) : ℚ :=
  if key == "theme_match" then b.theme_match
  else if key == "past_frequency" then b.past_frequency
  else if key == "description_sim" then b.description_sim
  else if key == "sector_trend" then b.sector_trend
  else if key == "signal_match" then b.signal_match
  else if key == "cycle_tendency" then b.cycle_tendency
  else 0

/-- One scored candidate. -/
structure Candidate where
  name : String
  total_score : ℚ
  confidence : String
  is_current_holding : Bool
  score_breakdown : ScoreBreakdown
  explanations : List String
deriving DecidableEq

/-- Factor 1 loop body: for each theme whose keyword list matches the
candidate's name or a reference sector, add `latest value / 100` once (the
source `break`s after the first matching keyword) and record the theme. -/
def themeMatchStep (latest_themes : List (String × ℚ)) (cand_name : String)
    (cand_sectors : List String) (acc : ℚ × List String) (tk : String × List String) :
    ℚ × List String :=
  if tk.2.any (fun kw => substrB kw cand_name || cand_sectors.any (fun s => substrB kw s))
  then (acc.1 + agetD latest_themes tk.1 0 / 100, acc.2 ++ [tk.1])
  else acc

/-- Factor 3 inner loop over one aspect's keywords: `+0.2` and break at the
first keyword that matches the name/sectors AND occurs in the policy text; a
keyword that matches but is absent from the policy does not break. -/
def descAspectLoop (cand_name : String) (cand_sectors : List String)
    (policy_text : String) : List String → ℚ
  | [] => 0
  | kw :: rest =>
    if substrB kw cand_name || cand_sectors.any (fun s => substrB kw s) then
      if substrB kw policy_text then 0.2
      else descAspectLoop cand_name cand_sectors policy_text rest
    else descAspectLoop cand_name cand_sectors policy_text rest

/-- Factor 3 accumulation over all evaluation aspects (before the clamp). -/
def descScoreRaw (aspects : List (String × List String)) (cand_name : String)
    (cand_sectors : List String) (policy_text : String) : ℚ :=
  (aspects.map (fun a => descAspectLoop cand_name cand_sectors policy_text a.2)).sum

/-- Sector counter over one report's holdings (`h.get("sector", "その他")`,
skipping falsy/empty sectors). -/
def sectorCounter (hs : List Holding) : List (String × ℕ) :=
  hs.foldl (fun c h => if h.sector != "" then cadd c h.sector else c) []

/-- Factor 4 loop over the candidate's sectors: 0.7 (with explanation) at the
first sector whose count increased, 0.4 at the first unchanged-but-nonzero
one; both branches break. -/
def sectorLoop (curr prev : List (String × ℕ)) : List String → ℚ × List String
  | [] => (0, [])
  | s :: rest =>
    if cget prev s < cget curr s then (0.7, ["業種「" ++ s ++ "」の配分増加傾向"])
    else if cget curr s = cget prev s ∧ 0 < cget curr s then (0.4, [])
    else sectorLoop curr prev rest

/-- Factor 5 helper: some theme's keyword list matches the sector and that
theme's latest value exceeds 15 (`theme in latest_themes and
latest_themes[theme] > 15`). -/
def sectorThemeHot (theme_keywords : List (String × List String))
    (latest_themes : List (String × ℚ)) (s : String) : Bool :=
  theme_keywords.any (fun tk =>
    tk.2.any (fun kw => substrB kw s) &&
    (match afind latest_themes tk.1 with
     | some v => decide ((15 : ℚ) < v)
     | none => false))

/-- Factor 5 accumulation: per candidate sector, `+0.2` capped at 1. -/
def signalBoostFold (theme_keywords : List (String × List String))
    (latest_themes : List (String × ℚ)) (base : ℚ) (sectors : List String) : ℚ :=
  sectors.foldl
    (fun sc s => if sectorThemeHot theme_keywords latest_themes s
                 then min (sc + 0.2) 1 else sc) base

/-- The candidate's reference sectors: `[c["sector"] for c in
CANDIDATE_UNIVERSE if c["name"] == cand_name]`. -/
def sectorsOf (cfg : Config) (cand_name : String) : List String :=
  cfg.candidate_universe.filterMap (fun c => if c.1 == cand_name then some c.2 else none)

/-- `total_score = sum(SCORE_WEIGHTS[key] * score_components.get(key, 0) for
key in SCORE_WEIGHTS)` — the weights range over the *stored* (rounded)
components. -/
def totalScoreOf (cfg : Config) (b : ScoreBreakdown) : ℚ :=
  (cfg.score_weights.map (fun w => w.2 * b.get w.1)).sum

/-- The fixed confidence thresholds on the (unrounded) total score. -/
def confOf (t : ℚ) : String :=
  if (0.5 : ℚ) ≤ t then "High" else if (0.3 : ℚ) ≤ t then "Medium" else "Low"

/-- Scoring of one candidate name: the body of the `for cand_name in
candidates_list` loop of `estimate_candidates` (analyze.py lines 307-448). -/
def scoreCandidate (cfg : Config) (train_reports : List Report) (latest : Report)
    (latest_themes : List (String × ℚ)) (past_stocks : List String)
    (stock_appearances : List (String × ℕ)) (current_holdings : List String)
    (holdings_analysis : List (String × StockStats)) (cand_name : String) : Candidate :=
  let cand_sectors := sectorsOf cfg cand_name
  -- 1. theme match
  let tm := cfg.theme_keywords.foldl (themeMatchStep latest_themes cand_name cand_sectors) (0, [])
  let theme_score := min tm.1 1
  let explanations1 : List String :=
    if tm.2 ≠ [] then ["テーマ一致: " ++ String.intercalate ", " (dedupFirst tm.2)] else []
  -- 2. past frequency (×1.3 re-entry bonus)
  let appear := cget stock_appearances cand_name
  let freq0 : ℚ := (appear : ℚ) / ((max train_reports.length 1 : ℕ) : ℚ)
  let reentry := past_stocks.contains cand_name && !(current_holdings.contains cand_name)
  let freq := if reentry then freq0 * 1.3 else freq0
  let explanations2 : List String :=
    if reentry then ["過去" ++ toString appear ++ "回採用（再登場候補）"]
    else if past_stocks.contains cand_name then ["過去" ++ toString appear ++ "回採用"]
    else []
  -- 3. description similarity
  let policy_text := agetD latest.sections "future_policy" ""
  let desc_score := min (descScoreRaw cfg.evaluation_aspects cand_name cand_sectors policy_text) 1
  let explanations3 : List String :=
    if (0.3 : ℚ) < desc_score then ["運用方針テキストとの特徴類似度が高い"] else []
  -- 4. sector trend (needs ≥ 2 train reports)
  let sectorPair : ℚ × List String :=
    if 2 ≤ train_reports.length then
      sectorLoop (sectorCounter latest.holdings)
        (sectorCounter (train_reports.getD (train_reports.length - 2) emptyReport).holdings)
        cand_sectors
    else (0, [])
  -- 5. signal match
  let base_signal : ℚ :=
    if latest.signals_cautious.length < latest.signals_positive.length then 0.6
    else if latest.signals_positive ≠ [] then 0.3 else 0
  let signal_score := signalBoostFold cfg.theme_keywords latest_themes base_signal cand_sectors
  let explanations5 : List String :=
    if (0.5 : ℚ) < signal_score then ["直近方針でポジティブシグナル"] else []
  -- 6. cycle tendency
  let cyclePair : ℚ × List String :=
    match afind holdings_analysis cand_name with
    | some ha =>
      if ha.consecutive_months = 0 ∧ 1 < ha.total_appearances then
        (0.7, ["入替サイクル: 過去" ++ toString ha.total_appearances ++ "回登場、再登場パターン"])
      else if (2 : ℚ) < ha.rank_volatility then (0.4, [])
      else (0, [])
    | none => (0, [])
  let breakdown : ScoreBreakdown :=
    { theme_match := roundTo 3 theme_score
      past_frequency := roundTo 3 (min freq 1)
      description_sim := roundTo 3 desc_score
      sector_trend := roundTo 3 sectorPair.1
      signal_match := roundTo 3 signal_score
      cycle_tendency := roundTo 3 cyclePair.1 }
  let explanations :=
    explanations1 ++ explanations2 ++ explanations3 ++ sectorPair.2 ++ explanations5 ++ cyclePair.2
  { name := cand_name
    total_score := roundTo 3 (totalScoreOf cfg breakdown)
    confidence := confOf (totalScoreOf cfg breakdown)
    is_current_holding := current_holdings.contains cand_name
    score_breakdown := breakdown
    explanations := if explanations ≠ [] then explanations else ["該当する特徴なし"] }

/-- Stable descending insertion by `total_score`: the inserted element goes
after every earlier element of greater-or-equal score, which is exactly the
guarantee of Python's stable `list.sort(key=..., reverse=True)`. -/
def insertDesc (x : Candidate) : List Candidate → List Candidate
  | [] => [x]
  | y :: ys => if y.total_score ≤ x.total_score then x :: y :: ys else y :: insertDesc x ys

/-- Stable descending sort by `total_score`. -/
def sortDesc : List Candidate → List Candidate
  | [] => []
  | x :: xs => insertDesc x (sortDesc xs)

/-- The train prefix `reports[:cutoff_idx + 1]`. -/
def trainOf (reports : List Report) (cutoff_idx : ℤ) : List Report :=
  reports.take (cutoff_idx.toNat + 1)

/-- `latest = train_reports[-1]` (the in-range guard makes the prefix
non-empty, so the default is unreachable). -/
def latestOf (reports : List Report) (cutoff_idx : ℤ) : Report :=
  (trainOf reports cutoff_idx).getLastD emptyReport

/-- The most recent "future policy" section text visible at the cutoff. -/
def policyTextOf (reports : List Report) (cutoff_idx : ℤ) : String :=
  agetD (latestOf reports cutoff_idx).sections "future_policy" ""

/-- `estimate_candidates` (analyze.py lines 249-453).  `holding_changes` is
accepted and unused, as in the source. -/
def estimate_candidates (cfg : Config) (reports : List Report) (cutoff_idx : ℤ)
    (theme_trends : List (String × List TrendPoint))
    (holdings_analysis : List (String × StockStats))
    (holding_changes : List ChangeRecord) : List Candidate :=
  if cutoff_idx < 0 ∨ (reports.length : ℤ) ≤ cutoff_idx then []
  else
    let train_reports := trainOf reports cutoff_idx
    let latest := latestOf reports cutoff_idx
    let latest_month := latest.report_month
    let current_holdings := dedupFirst ((validHoldings latest).map (fun h => h.name))
    let latest_themes := theme_trends.filterMap (fun tt =>
      (tt.2.find? (fun td => td.month == latest_month)).map (fun td => (tt.1, td.value)))
    let past_stocks := dedupFirst
      (train_reports.flatMap (fun r => (validHoldings r).map (fun h => h.name)))
    let stock_appearances := train_reports.foldl
      (fun c r => (validHoldings r).foldl (fun c h => cadd c h.name) c) []
    let candidates_list := sortAsc (dedupFirst (past_stocks ++ cfg.candidate_universe.map Prod.fst))
    sortDesc (candidates_list.map (scoreCandidate cfg train_reports latest latest_themes
      past_stocks stock_appearances current_holdings holdings_analysis))

/-- Per-K evaluation metrics of one backtest period (Python dict key
`f"top_{k}"`; modelled keyed by `k` itself; the Python `"recall"` key is
spelled `recall_val`, `recall` being reserved in this environment). -/
structure TopKMetrics where
  predicted : List String
  hits : List String
  hit_count : ℕ
  precision : ℚ
  recall_val : ℚ
  hit_rate : ℕ
deriving DecidableEq

/-- Default used only to give the total association-list read below a value;
every key actually read is present by construction (Python would raise
`KeyError` otherwise). -/
def defaultMetrics : TopKMetrics := ⟨[], [], 0, 0, 0, 0⟩

/-- One entry of a period's hit/miss classification trail (`"type"` field of
the source is spelled `etype` here). -/
structure HitExplanation where
  name : String
  etype : String
  score : ℚ
  reason : String
deriving DecidableEq

/-- One backtest period result. -/
structure PeriodResult where
  train_until : String
  predicted_month : String
  actual_new_entries : List String
  metrics : List (ℕ × TopKMetrics)
  explanations : List HitExplanation
deriving DecidableEq

/-- Per-K aggregate of the backtest summary. -/
structure TopKSummary where
  avg_hit_rate : ℚ
  avg_precision : ℚ
  avg_recall : ℚ
  total_periods : ℕ
deriving DecidableEq

/-- `run_backtest` returns either the structured insufficient-data payload
`{"error": ..., "results": []}` or `{"summary": ..., "results": ...}`. -/
inductive BacktestOutput where
  | insufficientData (error : String) (results : List PeriodResult)
  | success (summary : List (ℕ × TopKSummary)) (results : List PeriodResult)
deriving DecidableEq

/-- The `results` list of either shape. -/
def BacktestOutput.resultsList : BacktestOutput → List PeriodResult
  | .insufficientData _ rs => rs
  | .success _ rs => rs

/-- The `summary` dict of a success (absent, hence empty, on the error shape). -/
def BacktestOutput.summaryList : BacktestOutput → List (ℕ × TopKSummary)
  | .insufficientData _ _ => []
  | .success s _ => s

/-- Body of the `for cutoff_idx in range(min_train, len(reports) - 1)` loop of
`run_backtest`: re-derive every analysis from the train prefix only, score,
and evaluate the top-K non-held candidates against the realized next month. -/
def periodResultAt (cfg : Config) (reports : List Report) (cutoff_idx : ℕ) : PeriodResult :=
  let train_reports := reports.take (cutoff_idx + 1)
  let target_report := reports.getD (cutoff_idx + 1) emptyReport
  let target_holdings := dedupFirst ((validHoldings target_report).map (fun h => h.name))
  let current_holdings :=
    dedupFirst ((validHoldings (train_reports.getLastD emptyReport)).map (fun h => h.name))
  let new_entries := target_holdings.filter (fun n => !(current_holdings.contains n))
  let theme_trends := compute_theme_trend (compute_theme_intensity train_reports) 3
  let holdings_analysis := analyze_holdings_history train_reports
  let holding_changes := detect_holding_changes train_reports
  let candidates := estimate_candidates cfg train_reports (cutoff_idx : ℤ)
    theme_trends holdings_analysis holding_changes
  let new_candidates := candidates.filter (fun c => !c.is_current_holding)
  let metrics : List (ℕ × TopKMetrics) := cfg.top_k_values.map (fun k =>
    let top_k_names := dedupFirst ((new_candidates.take k).map (fun c => c.name))
    let hits := top_k_names.filter (fun n => new_entries.contains n)
    (k, { predicted := top_k_names
          hits := hits
          hit_count := hits.length
          precision := roundTo 3 (if 0 < k then (hits.length : ℚ) / (k : ℚ) else 0)
          recall_val := roundTo 3 ((hits.length : ℚ) / ((max new_entries.length 1 : ℕ) : ℚ))
          hit_rate := if 0 < hits.length then 1 else 0 }))
  let maxK := cfg.top_k_values.foldl max 0
  let hit_explanations := (new_candidates.take maxK).filterMap (fun c =>
    if new_entries.contains c.name then
      some ⟨c.name, "hit", c.total_score, String.intercalate "; " c.explanations⟩
    else if target_holdings.contains c.name then
      some ⟨c.name, "continuation", c.total_score, "継続保有（新規ではない）"⟩
    else none)
  { train_until := (train_reports.getLastD emptyReport).report_month
    predicted_month := target_report.report_month
    actual_new_entries := new_entries
    metrics := metrics
    explanations := hit_explanations }

/-- Per-K aggregation over all periods. -/
def summaryFor (results : List PeriodResult) (k : ℕ) : TopKSummary :=
  let hit_rates := results.map (fun r => ((agetD r.metrics k defaultMetrics).hit_rate : ℚ))
  let precisions := results.map (fun r => (agetD r.metrics k defaultMetrics).precision)
  let recalls := results.map (fun r => (agetD r.metrics k defaultMetrics).recall_val)
  { avg_hit_rate := roundTo 3 (hit_rates.sum / ((max hit_rates.length 1 : ℕ) : ℚ))
    avg_precision := roundTo 3 (precisions.sum / ((max precisions.length 1 : ℕ) : ℚ))
    avg_recall := roundTo 3 (recalls.sum / ((max recalls.length 1 : ℕ) : ℚ))
    total_periods := results.length }

/-- `run_backtest` (analyze.py lines 460-569). -/
def run_backtest (cfg : Config) (reports : List Report) : BacktestOutput :=
  let min_train := cfg.min_training_months
  if reports.length < min_train + 1 then
    .insufficientData
      ("バックテストには最低" ++ toString (min_train + 1) ++ "ヶ月のデータが必要です") []
  else
    let results := (List.range' min_train (reports.length - 1 - min_train)).map
      (periodResultAt cfg reports)
    .success (cfg.top_k_values.map (fun k => (k, summaryFor results k))) results

/-- The per-cutoff backtest pipeline: every analysis recomputed from the
train prefix `reports[0..c]`, then the scorer at `cutoff_idx = c` (the body
of `run_backtest`'s loop up to the candidate list). -/
def backtestPipeline (cfg : Config) (reports : List Report) (c : ℕ) : List Candidate :=
  estimate_candidates cfg (reports.take (c + 1)) (c : ℤ)
    (compute_theme_trend (compute_theme_intensity (reports.take (c + 1))) 3)
    (analyze_holdings_history (reports.take (c + 1)))
    (detect_holding_changes (reports.take (c + 1)))

/-- The description-similarity factor as the specification sentence reads it:
0.2 per evaluation-aspect *keyword* (each keyword counted, across all
aspects) that both matches the candidate's name or a reference sector and
occurs in the future-policy text, clamped at 1.  Written from the spec's
words, to be compared against the behaviour of `estimate_candidates`. -/
def claimDescriptionSim (aspects : List (String × List String)) (cand_name : String)
    (cand_sectors : List String) (policy_text : String) : ℚ :=
  min (0.2 * (((aspects.flatMap Prod.snd).filter (fun kw =>
    (substrB kw cand_name || cand_sectors.any (fun s => substrB kw s)) &&
    substrB kw policy_text)).length : ℚ)) 1

/-- Number of evaluation aspects containing at least one keyword that both
matches the candidate's name or a reference sector and occurs in the
future-policy text — what one iteration of the source's per-aspect loop can
contribute its 0.2 for. -/
def descAspectsMatched (aspects : List (String × List String)) (cand_name : String)
    (cand_sectors : List String) (policy_text : String) : ℕ :=
  (aspects.filter (fun a => a.2.any (fun kw =>
    (substrB kw cand_name || cand_sectors.any (fun s => substrB kw s)) &&
    substrB kw policy_text))).length

/-- Rank of a confidence tier in the order High > Medium > Low. -/
def confRank (c : String) : ℕ :=
  if c == "High" then 2 else if c == "Medium" then 1 else 0

/-- The rank at which `n` is held in report `i` of the corpus (`none` when
not held), read off the same name→rank dict `detect_holding_changes` builds. -/
def heldRank (reports : List Report) (i : ℕ) (n : String) : Option ℤ :=
  afind (holdingsDict (reports.getD i emptyReport).holdings) n

/-- Placeholder change record for total indexing in closed statements. -/
def defaultChange : ChangeRecord := ⟨"", [], [], [], []⟩

/-- Placeholder summary for total indexing in closed statements. -/
def defaultSummary : TopKSummary := ⟨0, 0, 0, 0⟩

/-- Placeholder candidate for total indexing in closed statements. -/
def defaultCand : Candidate := ⟨"", 0, "", false, ⟨0, 0, 0, 0, 0, 0⟩, []⟩

/-- Report constructor for the concrete scenarios below: month plus ranked
holdings. -/
def mkRep (m : String) (hs : List (ℤ × String)) : Report :=
  { report_month := m
    sections := []
    signals_positive := []
    signals_cautious := []
    theme_keywords := []
    holdings := hs.map (fun p => ⟨p.1, p.2, "", ""⟩) }

/-- A minimal configuration for concrete instances. -/
def cfgDemo : Config :=
  { theme_keywords := [("半導体", ["半導体"])]
    evaluation_aspects := [("成長", ["成長"])]
    candidate_universe := [("A", "電機"), ("B", "電機")]
    score_weights := [("theme_match", 0.25), ("past_frequency", 0.2),
      ("description_sim", 0.15), ("sector_trend", 0.15),
      ("signal_match", 0.15), ("cycle_tendency", 0.1)]
    min_training_months := 3
    top_k_values := [5] }

/-- A configuration whose only weighted factor is past frequency. -/
def cfgFreq : Config :=
  { theme_keywords := []
    evaluation_aspects := []
    candidate_universe := [("A", ""), ("B", "")]
    score_weights := [("past_frequency", 1)]
    min_training_months := 3
    top_k_values := [5] }

/-- Configuration for the description-similarity counterexample: one aspect
holding two keywords. -/
def cfgTwoKw : Config :=
  { theme_keywords := []
    evaluation_aspects := [("a", ["x", "y"])]
    candidate_universe := [("xy", "")]
    score_weights := [("description_sim", 1)]
    min_training_months := 3
    top_k_values := [5] }

/-- Report whose future-policy text contains both keywords of `cfgTwoKw`. -/
def repTwoKw : Report :=
  { report_month := "2024-01"
    sections := [("future_policy", "xy")]
    signals_positive := []
    signals_cautious := []
    theme_keywords := []
    holdings := [] }

/-- Report with keyword counts 2 and 6. -/
def repCounts : Report :=
  { report_month := "2024-01"
    sections := []
    signals_positive := []
    signals_cautious := []
    theme_keywords := [("a", 2), ("b", 6)]
    holdings := [] }

/-- Report whose keyword counts are all zero. -/
def repZero : Report :=
  { report_month := "2024-02"
    sections := []
    signals_positive := []
    signals_cautious := []
    theme_keywords := [("a", 0), ("b", 0)]
    holdings := [] }

/-- Report whose keyword counts cancel: sum 0 with nonzero entries. -/
def repCancel : Report :=
  { report_month := "2024-03"
    sections := []
    signals_positive := []
    signals_cautious := []
    theme_keywords := [("a", -1), ("b", 1)]
    holdings := [] }

/-- The 4-month holding-change scenario: `{A,B,C}` in months 1-3, `{A,B,D}`
in month 4 (with a rank swap of A and B to exercise the rank-move lists). -/
def changeDemo : List Report :=
  [mkRep "2024-01" [(1, "A"), (2, "B"), (3, "C")],
   mkRep "2024-02" [(1, "A"), (2, "B"), (3, "C")],
   mkRep "2024-03" [(1, "A"), (2, "B"), (3, "C")],
   mkRep "2024-04" [(1, "B"), (2, "A"), (3, "D")]]

/-- Five reports for the backtest scenario (`minTrainingMonths = 3`). -/
def demoReports5 : List Report :=
  changeDemo ++ [mkRep "2024-05" [(1, "A"), (2, "D"), (3, "E")]]

/-- A two-point intensity series for one theme. -/
def tiDemo : List ThemeIntensityRecord :=
  [⟨"m1", [("t", 10)], 1⟩, ⟨"m2", [("t", 30)], 1⟩]

/-! ### General lemmas about the helpers -/

theorem roundTo_mono (nd : ℕ) {x y : ℚ} (h : x ≤ y) : roundTo nd x ≤ roundTo nd y := by
  unfold roundTo
  have h10 : (0 : ℚ) < 10 ^ nd := by positivity
  have hr : round (x * 10 ^ nd) ≤ round (y * 10 ^ nd) := by
    rw [round_eq, round_eq]
    exact Int.floor_mono (by nlinarith)
  exact div_le_div_of_le_of_nonneg (by exact_mod_cast hr) (le_of_lt h10)

theorem roundTo_int (nd : ℕ) (m : ℤ) : roundTo nd (m : ℚ) = m := by
  unfold roundTo
  rw [show ((m : ℚ) * 10 ^ nd) = (((m * 10 ^ nd : ℤ)) : ℚ) by push_cast; ring, round_intCast]
  push_cast
  rw [mul_div_assoc, div_self (by positivity), mul_one]

theorem roundTo_frac (nd : ℕ) (m : ℤ) :
    roundTo nd ((m : ℚ) / 10 ^ nd) = (m : ℚ) / 10 ^ nd := by
  unfold roundTo
  rw [div_mul_cancel₀ _ (by positivity : (10 : ℚ) ^ nd ≠ 0), round_intCast]

theorem roundTo_lt_reflect (nd : ℕ) {x y : ℚ} (h : roundTo nd x < roundTo nd y) : x < y := by
  by_contra hc
  exact absurd (roundTo_mono nd (not_lt.mp hc)) (not_le.mpr h)

theorem mem_insertDesc {x a : Candidate} {l : List Candidate} :
    a ∈ insertDesc x l ↔ a = x ∨ a ∈ l := by
  induction l with
  | nil => simp [insertDesc]
  | cons y ys ih =>
    unfold insertDesc
    split
    · simp [or_assoc]
    · simp only [List.mem_cons, ih]
      tauto

theorem mem_sortDesc {a : Candidate} {l : List Candidate} : a ∈ sortDesc l ↔ a ∈ l := by
  induction l with
  | nil => simp [sortDesc]
  | cons y ys ih => simp [sortDesc, mem_insertDesc, ih]

theorem afind_isSome {α : Type} {d : List (String × α)} {k : String} :
    (afind d k).isSome ↔ ∃ p ∈ d, p.1 = k := by
  simp [afind, List.find?_isSome]

theorem afind_eq_none {α : Type} {d : List (String × α)} {k : String} :
    afind d k = none ↔ ∀ p ∈ d, p.1 ≠ k := by
  simp [afind, List.find?_eq_none]

theorem afind_eq_some_mem {α : Type} {d : List (String × α)} {k : String} {v : α}
    (h : afind d k = some v) : (k, v) ∈ d := by
  unfold afind at h
  rcases Option.map_eq_some'.mp h with ⟨p, hp, hv⟩
  have h1 : p.1 = k := by simpa using List.find?_some hp
  have h2 : p ∈ d := List.mem_of_find?_eq_some hp
  have : p = (k, v) := by
    cases p
    simp_all
  rwa [this] at h2

/-! ### C1: the leakage invariant -/

/-- C1.  For every two report lists that agree element-wise on indices
`0..c`, the per-cutoff backtest pipeline at cutoff `c` (all four analyses
recomputed on the prefix `reports[0..c]`, then `estimate_candidates` with
`cutoff_idx = c`) produces identical candidate lists: the output does not
depend on any report at an index greater than `c`. -/
theorem c1_leakage_invariant (cfg : Config) (r1 r2 : List Report) (c : ℕ)
    (h : ∀ i, i ≤ c → r1.get? i = r2.get? i) :
    backtestPipeline cfg r1 c = backtestPipeline cfg r2 c := by
  have ht : r1.take (c + 1) = r2.take (c + 1) := by
    apply List.ext_get?
    intro n
    rcases Nat.lt_or_ge n (c + 1) with hn | hn
    · rw [List.get?_take hn, List.get?_take hn]
      exact h n (Nat.lt_succ_iff.mp hn)
    · have e1 : (r1.take (c + 1)).get? n = none :=
        List.get?_eq_none.2 (by rw [List.length_take]; exact le_trans (min_le_left _ _) hn)
      have e2 : (r2.take (c + 1)).get? n = none :=
        List.get?_eq_none.2 (by rw [List.length_take]; exact le_trans (min_le_left _ _) hn)
      rw [e1, e2]
  unfold backtestPipeline
  rw [ht]

/-- C1 witness: two corpora agreeing at index 0 but differing afterwards
give the same pipeline output at cutoff 0. -/
theorem c1_witness :
    backtestPipeline cfgDemo [mkRep "2024-01" [(1, "A")]] 0 =
      backtestPipeline cfgDemo
        [mkRep "2024-01" [(1, "A")], mkRep "2024-02" [(1, "Z")]] 0 :=
  c1_leakage_invariant cfgDemo _ _ 0 (by
    intro i hi
    interval_cases i
    rfl)

/-! ### C4: out-of-range cutoff -/

/-- C4.  For every report list and every `cutoff_idx` outside
`[0, len(reports) - 1]`, `estimate_candidates` returns the empty list (and,
being a total function, raises nothing), whatever the other arguments. -/
theorem c4_out_of_range_empty (cfg : Config) (reports : List Report) (cutoff_idx : ℤ)
    (theme_trends : List (String × List TrendPoint))
    (holdings_analysis : List (String × StockStats)) (holding_changes : List ChangeRecord)
    (h : cutoff_idx < 0 ∨ (reports.length : ℤ) - 1 < cutoff_idx) :
    estimate_candidates cfg reports cutoff_idx theme_trends holdings_analysis
      holding_changes = [] := by
  unfold estimate_candidates
  rw [if_pos]
  rcases h with h | h
  · exact Or.inl h
  · exact Or.inr (by omega)

/-- C4 witness: a negative cutoff on an empty corpus. -/
theorem c4_witness : estimate_candidates cfgDemo [] (-1) [] [] [] = [] :=
  c4_out_of_range_empty cfgDemo [] (-1) [] [] [] (Or.inl (by norm_num))

/-! ### C5: insufficient data for the backtest -/

/-- C5.  For every report list with fewer than `minTrainingMonths + 1`
reports, `run_backtest` returns the structured insufficient-data payload
(the error message plus an empty results list); being total, it raises
nothing. -/
theorem c5_insufficient_data (cfg : Config) (reports : List Report)
    (h : reports.length < cfg.min_training_months + 1) :
    run_backtest cfg reports = .insufficientData
      ("バックテストには最低" ++ toString (cfg.min_training_months + 1) ++
        "ヶ月のデータが必要です") [] := by
  unfold run_backtest
  rw [if_pos h]

/-- C5 witness: an empty corpus under `minTrainingMonths = 3`. -/
theorem c5_witness :
    run_backtest cfgDemo [] =
      .insufficientData "バックテストには最低4ヶ月のデータが必要です" [] := by
  rw [c5_insufficient_data cfgDemo [] (by decide)]
  decide

/-! ### C7: trend boundary and direction thresholds -/

theorem directionOf_spec (d : ℚ) :
    (directionOf d = "up" ↔ (0.5 : ℚ) < d) ∧
    (directionOf d = "down" ↔ d < -(0.5 : ℚ)) ∧
    (directionOf d = "stable" ↔ (¬ (0.5 : ℚ) < d ∧ ¬ d < -(0.5 : ℚ))) := by
  unfold directionOf
  split_ifs with h1 h2
  · exact ⟨⟨fun _ => h1, fun _ => rfl⟩,
      ⟨fun he => absurd he (by decide), fun hc => absurd hc (by linarith)⟩,
      ⟨fun he => absurd he (by decide), fun hc => absurd h1 hc.1⟩⟩
  · exact ⟨⟨fun he => absurd he (by decide), fun hgt => absurd hgt h1⟩,
      ⟨fun _ => h2, fun _ => rfl⟩,
      ⟨fun he => absurd he (by decide), fun hc => absurd h2 hc.2⟩⟩
  · exact ⟨⟨fun he => absurd he (by decide), fun hgt => absurd hgt h1⟩,
      ⟨fun he => absurd he (by decide), fun hlt => absurd hlt h2⟩,
      ⟨fun _ => ⟨h1, h2⟩, fun _ => rfl⟩⟩

theorem trendSeries_get? {ti : List ThemeIntensityRecord} {window : ℕ} {theme : String}
    {i : ℕ} {p : TrendPoint} (hp : (trendSeries ti window theme).get? i = some p) :
    p.delta = roundTo 2 ((trendDeltas (themeValues ti theme) window).getD i 0) ∧
    p.direction = directionOf ((trendDeltas (themeValues ti theme) window).getD i 0) := by
  simp only [trendSeries, List.get?_map] at hp
  rcases Option.map_eq_some'.mp hp with ⟨j, hj, hfj⟩
  have hij : j = i := by
    rcases Nat.lt_or_ge i ((ti.map (fun item => item.month)).length) with hlt | hge
    · rw [List.get?_range hlt] at hj
      injection hj with h
      exact h.symm
    · rw [List.get?_eq_none.2 (by simpa using hge)] at hj
      cases hj
  subst hij
  subst hfj
  exact ⟨rfl, rfl⟩

/-- C7.  For every theme-intensity series and every theme in the output of
`compute_theme_trend`, the first point has `delta = 0` and direction
`stable`, and each point's direction is `up` exactly when its delta
(`ma[i] − ma[i-1]`, the source's unrounded `deltas[i]`) exceeds 0.5, `down`
exactly when it is below −0.5, and `stable` otherwise. -/
theorem c7_trend_directions (ti : List ThemeIntensityRecord) (window : ℕ) (hw : 0 < window)
    (theme : String) (series : List TrendPoint)
    (hmem : (theme, series) ∈ compute_theme_trend ti window) :
    (∀ p, series.head? = some p → p.delta = 0 ∧ p.direction = "stable") ∧
    (∀ i p, series.get? i = some p →
      ((p.direction = "up" ↔ (0.5 : ℚ) < (trendDeltas (themeValues ti theme) window).getD i 0) ∧
       (p.direction = "down" ↔ (trendDeltas (themeValues ti theme) window).getD i 0 < -(0.5 : ℚ)) ∧
       (p.direction = "stable" ↔
         (¬ (0.5 : ℚ) < (trendDeltas (themeValues ti theme) window).getD i 0 ∧
          ¬ (trendDeltas (themeValues ti theme) window).getD i 0 < -(0.5 : ℚ))))) := by
  unfold compute_theme_trend at hmem
  rcases List.mem_map.mp hmem with ⟨θ0, hθ0, heq⟩
  have h1 : θ0 = theme := congrArg Prod.fst heq
  have h2 : series = trendSeries ti window theme := by
    rw [← h1]
    exact (congrArg Prod.snd heq).symm
  subst h2
  constructor
  · intro p hp
    have hp0 : (trendSeries ti window theme).get? 0 = some p := by
      rw [List.get?_zero]
      exact hp
    obtain ⟨hd, hdir⟩ := trendSeries_get? hp0
    have h0 : (trendDeltas (themeValues ti theme) window).getD 0 0 = 0 := rfl
    rw [h0] at hd hdir
    refine ⟨?_, ?_⟩
    · rw [hd]
      simpa using roundTo_int 2 0
    · rw [hdir]
      unfold directionOf
      rw [if_neg (by norm_num), if_neg (by norm_num)]
  · intro i p hp
    obtain ⟨hd, hdir⟩ := trendSeries_get? hp
    rw [hdir]
    exact directionOf_spec _

/-- C7 witness: on the two-point series `tiDemo` (theme value 10 then 30),
the first point has delta 0 and direction stable, and the second point's
direction is `up` with its unrounded delta 10 exceeding 0.5. -/
theorem c7_witness :
    0 < 3 ∧
    ((trendSeries tiDemo 3 "t").headD ⟨"", 0, 0, 0, ""⟩).delta = 0 ∧
    ((trendSeries tiDemo 3 "t").headD ⟨"", 0, 0, 0, ""⟩).direction = "stable" ∧
    ((trendSeries tiDemo 3 "t").getD 1 ⟨"", 0, 0, 0, ""⟩).direction = "up" := by
  have hmem : ("t", trendSeries tiDemo 3 "t") ∈ compute_theme_trend tiDemo 3 :=
    List.mem_singleton.mpr rfl
  obtain ⟨hd, hdir⟩ := (c7_trend_directions tiDemo 3 (by norm_num) "t"
    (trendSeries tiDemo 3 "t") hmem).1
    ((trendSeries tiDemo 3 "t").headD ⟨"", 0, 0, 0, ""⟩) rfl
  have he : (trendDeltas (themeValues tiDemo "t") 3).getD 1 0 = 10 := by
    show ((10 : ℚ) + (30 + 0)) / ((2 : ℕ) : ℚ) - ((10 : ℚ) + 0) / ((1 : ℕ) : ℚ) = 10
    norm_num
  have hup := ((c7_trend_directions tiDemo 3 (by norm_num) "t"
    (trendSeries tiDemo 3 "t") hmem).2 1
    ((trendSeries tiDemo 3 "t").getD 1 ⟨"", 0, 0, 0, ""⟩) rfl).1.mpr
    (by rw [he]; norm_num)
  exact ⟨by norm_num, hd, hdir, hup⟩

/-! ### C8 / C10: theme-intensity normalization -/

theorem roundTo_eq_self {nd : ℕ} {x : ℚ} (m : ℤ) (hm : x * 10 ^ nd = (m : ℚ)) :
    roundTo nd x = x := by
  have h10 : (10 : ℚ) ^ nd ≠ 0 := by positivity
  unfold roundTo
  rw [hm, round_intCast, ← hm, mul_div_assoc, div_self h10, mul_one]

theorem intensityRecord_score_mem {r : Report} {p : String × ℚ}
    (h : ∀ q ∈ r.theme_keywords, 0 ≤ q.2) (hp : p ∈ (intensityRecord r).scores) :
    0 ≤ p.2 ∧ p.2 ≤ 100 ∧ (sumCounts r = 0 → p.2 = 0) := by
  simp only [intensityRecord] at hp
  rcases List.mem_map.mp hp with ⟨q, hq, hqe⟩
  have hq0 : (0 : ℤ) ≤ q.2 := h q hq
  have hqsum : q.2 ≤ sumCounts r := by
    refine List.single_le_sum ?_ _ (List.mem_map_of_mem (fun p => p.2) hq)
    intro x hx
    rcases List.mem_map.mp hx with ⟨q1, hq1, hq1e⟩
    rw [← hq1e]
    exact h q1 hq1
  subst hqe
  by_cases hz : sumCounts r = 0
  · have hq20 : q.2 = 0 := le_antisymm (hz ▸ hqsum) hq0
    have hval : roundTo 2 ((q.2 : ℚ) /
        (((if sumCounts r = 0 then 1 else sumCounts r) : ℤ) : ℚ) * 100) = 0 := by
      rw [hq20]
      rw [show ((0 : ℤ) : ℚ) / (((if sumCounts r = 0 then 1 else sumCounts r) : ℤ) : ℚ)
          * 100 = ((0 : ℤ) : ℚ) by push_cast; ring]
      exact roundTo_int 2 0 |>.trans (by norm_num)
    refine ⟨?_, ?_, fun _ => ?_⟩
    · show (0 : ℚ) ≤ roundTo 2 ((q.2 : ℚ) /
        (((if sumCounts r = 0 then 1 else sumCounts r) : ℤ) : ℚ) * 100)
      rw [hval]
    · show roundTo 2 ((q.2 : ℚ) /
        (((if sumCounts r = 0 then 1 else sumCounts r) : ℤ) : ℚ) * 100) ≤ 100
      rw [hval]
      norm_num
    · show roundTo 2 ((q.2 : ℚ) /
        (((if sumCounts r = 0 then 1 else sumCounts r) : ℤ) : ℚ) * 100) = 0
      rw [hval]
  · have hTpos : (0 : ℤ) < sumCounts r := by
      have hnn : (0 : ℤ) ≤ sumCounts r := by
        refine List.sum_nonneg ?_
        intro x hx
        rcases List.mem_map.mp hx with ⟨q1, hq1, hq1e⟩
        rw [← hq1e]
        exact h q1 hq1
      omega
    have hTq : ((if sumCounts r = 0 then 1 else sumCounts r : ℤ) : ℚ) = (sumCounts r : ℚ) := by
      rw [if_neg hz]
    have hTratpos : (0 : ℚ) < (sumCounts r : ℚ) := by exact_mod_cast hTpos
    have hraw0 : (0 : ℚ) ≤ (q.2 : ℚ) /
        (((if sumCounts r = 0 then 1 else sumCounts r) : ℤ) : ℚ) * 100 := by
      rw [hTq]
      have : (0 : ℚ) ≤ (q.2 : ℚ) := by exact_mod_cast hq0
      positivity
    have hraw100 : (q.2 : ℚ) /
        (((if sumCounts r = 0 then 1 else sumCounts r) : ℤ) : ℚ) * 100 ≤ 100 := by
      rw [hTq]
      have hle1 : (q.2 : ℚ) / (sumCounts r : ℚ) ≤ 1 :=
        (div_le_one hTratpos).mpr (by exact_mod_cast hqsum)
      nlinarith
    refine ⟨?_, ?_, fun hzz => absurd hzz hz⟩
    · have := roundTo_mono 2 hraw0
      rw [show roundTo 2 (0 : ℚ) = 0 from (roundTo_int 2 0).trans (by norm_num)] at this
      simpa using this
    · have := roundTo_mono 2 hraw100
      rw [show roundTo 2 (100 : ℚ) = 100 by
        have h100 := roundTo_int 2 100
        push_cast at h100
        exact h100] at this
      simpa using this

/-- C8.  For every report list whose theme-keyword counts are all
nonnegative, every per-theme score produced by `compute_theme_intensity`
lies in `[0, 100]`, and for a report whose counts sum to 0 every score is 0
(the denominator is replaced by 1; the model is total, so no NaN or
division error can arise). -/
theorem c8_intensity_bounds (reports : List Report)
    (h : ∀ r ∈ reports, ∀ q ∈ r.theme_keywords, 0 ≤ q.2) :
    (∀ rec ∈ compute_theme_intensity reports, ∀ p ∈ rec.scores, 0 ≤ p.2 ∧ p.2 ≤ 100) ∧
    (∀ r ∈ reports, sumCounts r = 0 → ∀ p ∈ (intensityRecord r).scores, p.2 = 0) := by
  constructor
  · intro rec hrec p hp
    rcases List.mem_map.mp hrec with ⟨r, hr, hre⟩
    subst hre
    have := intensityRecord_score_mem (h r hr) hp
    exact ⟨this.1, this.2.1⟩
  · intro r hr hz p hp
    exact (intensityRecord_score_mem (h r hr) hp).2.2 hz

/-- C8 witness: on a report with counts 2 and 6 the first score is within
`[0, 100]`, and on the all-zero report the first score is 0. -/
theorem c8_witness :
    0 ≤ ((intensityRecord repCounts).scores.headD ("", 0)).2 ∧
    ((intensityRecord repCounts).scores.headD ("", 0)).2 ≤ 100 ∧
    ((intensityRecord repZero).scores.headD ("", 0)).2 = 0 := by
  have hcounts : ∀ r ∈ [repCounts, repZero], ∀ q ∈ r.theme_keywords, (0 : ℤ) ≤ q.2 := by
    decide
  have h := c8_intensity_bounds [repCounts, repZero] hcounts
  have hm1 : intensityRecord repCounts ∈ compute_theme_intensity [repCounts, repZero] :=
    List.mem_map_of_mem _ (by decide)
  have hp1 : ((intensityRecord repCounts).scores.headD ("", 0)) ∈
      (intensityRecord repCounts).scores :=
    List.mem_of_mem_head? rfl
  have hp2 : ((intensityRecord repZero).scores.headD ("", 0)) ∈
      (intensityRecord repZero).scores :=
    List.mem_of_mem_head? rfl
  obtain ⟨h1, h2⟩ := h.1 _ hm1 _ hp1
  exact ⟨h1, h2, h.2 repZero (by decide) (by decide) _ hp2⟩

/-- C10 counterexample: the report with counts −1 and 1 sums to 0, the
emitted `total_keywords` is the substituted 1, but its first score is −100,
not 0 — the claim's "all of its scores are 0" fails for counts that cancel. -/
theorem c10_counterexample :
    sumCounts repCancel = 0 ∧
    (intensityRecord repCancel).total_keywords = 1 ∧
    ((intensityRecord repCancel).scores.headD ("", 0)) ∈ (intensityRecord repCancel).scores ∧
    ((intensityRecord repCancel).scores.headD ("", 0)).2 = -100 ∧ ((-100 : ℚ) ≠ 0) := by
  refine ⟨by decide, by decide, List.mem_of_mem_head? rfl, ?_, by norm_num⟩
  show roundTo 2 (((-1 : ℤ) : ℚ) / ((1 : ℤ) : ℚ) * 100) = -100
  rw [show ((-1 : ℤ) : ℚ) / ((1 : ℤ) : ℚ) * 100 = ((-100 : ℤ) : ℚ) by push_cast; ring]
  rw [roundTo_int]
  norm_num

/-- C10 amended: the record emitted by `compute_theme_intensity` reports
`total_keywords = 1` (the substituted denominator) when the counts sum to 0
and the true sum when it is positive; and provided the counts are
nonnegative (hence each 0), a zero sum forces all scores to 0. -/
theorem c10_amended (reports : List Report) (r : Report) (hr : r ∈ reports) :
    intensityRecord r ∈ compute_theme_intensity reports ∧
    (sumCounts r = 0 → (intensityRecord r).total_keywords = 1) ∧
    (0 < sumCounts r → (intensityRecord r).total_keywords = sumCounts r) ∧
    ((∀ q ∈ r.theme_keywords, 0 ≤ q.2) → sumCounts r = 0 →
      ∀ p ∈ (intensityRecord r).scores, p.2 = 0) := by
  refine ⟨List.mem_map_of_mem _ hr, ?_, ?_, ?_⟩
  · intro hz
    show (if sumCounts r = 0 then 1 else sumCounts r) = 1
    rw [if_pos hz]
  · intro hpos
    show (if sumCounts r = 0 then 1 else sumCounts r) = sumCounts r
    rw [if_neg (by omega)]
  · intro h hz p hp
    exact (intensityRecord_score_mem h hp).2.2 hz

/-- C10 witness: on the all-zero report, `total_keywords` comes out as the
substituted 1 and the first score is 0. -/
theorem c10_witness :
    (intensityRecord repZero).total_keywords = 1 ∧
    ((intensityRecord repZero).scores.headD ("", 0)).2 = 0 := by
  have h := c10_amended [repCounts, repZero] repZero (by decide)
  exact ⟨h.2.1 (by decide),
    h.2.2.2 (by decide) (by decide) _ (List.mem_of_mem_head? rfl)⟩

/-! ### C3: holding-change detection -/

theorem dinsert_keys {α : Type} (d : List (String × α)) (k : String) (v : α) :
    (dinsert d k v).map Prod.fst =
      if d.any (fun p => p.1 == k) then d.map Prod.fst else d.map Prod.fst ++ [k] := by
  unfold dinsert
  split
  · rw [List.map_map]
    refine List.map_congr_left ?_
    intro p _
    by_cases hb : p.1 == k
    · simp only [Function.comp_apply, if_pos hb]
      exact (eq_of_beq hb).symm
    · simp only [Function.comp_apply, if_neg hb]
  · simp

theorem foldl_holdings_nodup (hs : List Holding) (d : List (String × ℤ))
    (hd : (d.map Prod.fst).Nodup) :
    ((hs.foldl (fun d h => if h.name != "" then dinsert d h.name h.rank else d) d).map
      Prod.fst).Nodup := by
  induction hs generalizing d with
  | nil => exact hd
  | cons h t ih =>
    simp only [List.foldl_cons]
    apply ih
    split
    · rw [dinsert_keys]
      split
      · exact hd
      · rename_i hany
        refine List.Nodup.append hd (List.nodup_singleton _) ?_
        intro a ha1 ha2
        rw [List.mem_singleton] at ha2
        subst ha2
        rcases List.mem_map.mp ha1 with ⟨p, hp, hpe⟩
        exact hany (List.any_eq_true.mpr ⟨p, hp, by simp [hpe]⟩)
    · exact hd

theorem holdingsDict_keys_nodup (hs : List Holding) :
    ((holdingsDict hs).map Prod.fst).Nodup :=
  foldl_holdings_nodup hs [] (by simp)

theorem afind_eq_of_mem_nodup {α : Type} {d : List (String × α)}
    (hnd : (d.map Prod.fst).Nodup) {p : String × α} (hp : p ∈ d) :
    afind d p.1 = some p.2 := by
  induction d with
  | nil => cases hp
  | cons q t ih =>
    rcases List.mem_cons.mp hp with he | hm
    · subst he
      simp [afind, List.find?_cons_of_pos]
    · have hne : q.1 ≠ p.1 := by
        intro hqe
        have : p.1 ∈ t.map Prod.fst := List.mem_map_of_mem _ hm
        rw [← hqe] at this
        exact (List.nodup_cons.mp (by simpa using hnd)).1 this
      have : afind t p.1 = some p.2 :=
        ih (List.nodup_cons.mp (by simpa using hnd)).2 hm
      simpa [afind, List.find?_cons_of_neg, hne] using this

theorem changeAt_new_entries {prevR curR : Report} {n : String} :
    n ∈ (changeAt prevR curR).new_entries ↔
      ((afind (holdingsDict curR.holdings) n).isSome ∧
       afind (holdingsDict prevR.holdings) n = none) := by
  simp only [changeAt]
  constructor
  · intro hmem'
    obtain ⟨h1, h2⟩ := List.mem_filter.mp hmem'
    refine ⟨afind_isSome.mpr ?_, afind_eq_none.mpr ?_⟩
    · exact List.mem_map.mp h1
    · intro p hp hpn
      have : (holdingsDict prevR.holdings).any (fun q => q.1 == n) = true :=
        List.any_eq_true.mpr ⟨p, hp, by simp [hpn]⟩
      simp [this] at h2
  · rintro ⟨h1, h2⟩
    refine List.mem_filter.mpr ⟨List.mem_map.mpr (afind_isSome.mp h1), ?_⟩
    have : ¬ (holdingsDict prevR.holdings).any (fun q => q.1 == n) = true := by
      rw [List.any_eq_true]
      rintro ⟨p, hp, hpn⟩
      exact afind_eq_none.mp h2 p hp (by simpa using hpn)
    simp [this]

theorem changeAt_removed {prevR curR : Report} {n : String} :
    n ∈ (changeAt prevR curR).removed ↔
      ((afind (holdingsDict prevR.holdings) n).isSome ∧
       afind (holdingsDict curR.holdings) n = none) := by
  simp only [changeAt]
  constructor
  · intro hmem'
    obtain ⟨h1, h2⟩ := List.mem_filter.mp hmem'
    refine ⟨afind_isSome.mpr ?_, afind_eq_none.mpr ?_⟩
    · exact List.mem_map.mp h1
    · intro p hp hpn
      have : (holdingsDict curR.holdings).any (fun q => q.1 == n) = true :=
        List.any_eq_true.mpr ⟨p, hp, by simp [hpn]⟩
      simp [this] at h2
  · rintro ⟨h1, h2⟩
    refine List.mem_filter.mpr ⟨List.mem_map.mpr (afind_isSome.mp h1), ?_⟩
    have : ¬ (holdingsDict curR.holdings).any (fun q => q.1 == n) = true := by
      rw [List.any_eq_true]
      rintro ⟨p, hp, hpn⟩
      exact afind_eq_none.mp h2 p hp (by simpa using hpn)
    simp [this]

theorem changeAt_rank_moves {prevR curR : Report} {n : String} {rc rp : ℤ}
    (hc : afind (holdingsDict curR.holdings) n = some rc)
    (hp : afind (holdingsDict prevR.holdings) n = some rp) :
    (0 < rp - rc → (⟨n, rp - rc⟩ : RankMove) ∈ (changeAt prevR curR).rank_up) ∧
    (rp - rc < 0 → (⟨n, rp - rc⟩ : RankMove) ∈ (changeAt prevR curR).rank_down) ∧
    (rp - rc = 0 →
      (∀ e ∈ (changeAt prevR curR).rank_up, e.name ≠ n) ∧
      (∀ e ∈ (changeAt prevR curR).rank_down, e.name ≠ n)) := by
  have hcmem : (n, rc) ∈ holdingsDict curR.holdings := afind_eq_some_mem hc
  have hcnodup := holdingsDict_keys_nodup curR.holdings
  refine ⟨?_, ?_, ?_⟩
  · intro hpos
    refine List.mem_filterMap.mpr ⟨(n, rc), hcmem, ?_⟩
    show (match afind (holdingsDict prevR.holdings) n with
      | some rp1 => if 0 < rp1 - rc then some (⟨n, rp1 - rc⟩ : RankMove) else none
      | none => none) = some (⟨n, rp - rc⟩ : RankMove)
    rw [hp]
    simp [hpos]
  · intro hneg
    refine List.mem_filterMap.mpr ⟨(n, rc), hcmem, ?_⟩
    show (match afind (holdingsDict prevR.holdings) n with
      | some rp1 => if rp1 - rc < 0 then some (⟨n, rp1 - rc⟩ : RankMove) else none
      | none => none) = some (⟨n, rp - rc⟩ : RankMove)
    rw [hp]
    simp [hneg]
  · intro hzero
    constructor <;>
    · intro e he hen
      obtain ⟨p, hpmem, hfe⟩ := List.mem_filterMap.mp he
      rcases hfind : afind (holdingsDict prevR.holdings) p.1 with _ | rq <;>
        rw [hfind] at hfe <;> dsimp only at hfe
      · cases hfe
      · split at hfe
        · rename_i hcnd
          have hee := Option.some.inj hfe
          have hpn : p.1 = n := by rw [← hen, ← hee]
          have h1 : afind (holdingsDict curR.holdings) p.1 = some p.2 :=
            afind_eq_of_mem_nodup hcnodup hpmem
          rw [hpn, hc] at h1
          have h2 : rq = rp := by
            rw [hpn, hp] at hfind
            exact (Option.some.inj hfind).symm
          have h3 : p.2 = rc := (Option.some.inj h1).symm
          rw [h2, h3] at hcnd
          omega
        · cases hfe

theorem detect_get? {reports : List Report} {i : ℕ} {ch : ChangeRecord}
    (h : (detect_holding_changes reports).get? i = some ch) :
    i < reports.length ∧
    ch = (if i = 0 then
            { month := (reports.getD 0 emptyReport).report_month
              new_entries := (holdingsDict (reports.getD 0 emptyReport).holdings).map Prod.fst
              removed := []
              rank_up := []
              rank_down := [] }
          else changeAt (reports.getD (i - 1) emptyReport) (reports.getD i emptyReport)) := by
  simp only [detect_holding_changes, List.get?_map] at h
  rcases Option.map_eq_some'.mp h with ⟨j, hj, hfj⟩
  have hlen : i < reports.length := by
    rcases Nat.lt_or_ge i reports.length with hlt | hge
    · exact hlt
    · rw [List.get?_eq_none.2 (by simpa using hge)] at hj
      cases hj
  have hij : j = i := by
    rw [List.get?_range hlen] at hj
    injection hj with h1
    exact h1.symm
  subst hij
  exact ⟨hlen, hfj.symm⟩

/-- C3.  `detect_holding_changes` returns one record per report; record 0
lists every holding name as new with nothing removed or rank-moved; for
`i > 0`, `new_entries` are exactly the names held at `i` but not `i-1`,
`removed` exactly those held at `i-1` but not `i`, and for names held at
both with `delta = previousRank − currentRank`, a positive delta yields a
`rank_up` entry carrying it, a negative one a `rank_down` entry, and a zero
delta appears in neither list (the 4-month `{A,B,C}` → `{A,B,D}` scenario is
instantiated in the witness). -/
theorem c3_holding_changes (reports : List Report) :
    (detect_holding_changes reports).length = reports.length ∧
    (∀ ch, (detect_holding_changes reports).get? 0 = some ch →
      ch.new_entries = (holdingsDict (reports.getD 0 emptyReport).holdings).map Prod.fst ∧
      ch.removed = [] ∧ ch.rank_up = [] ∧ ch.rank_down = []) ∧
    (∀ i ch, 0 < i → (detect_holding_changes reports).get? i = some ch →
      (∀ n, n ∈ ch.new_entries ↔
        ((heldRank reports i n).isSome ∧ heldRank reports (i - 1) n = none)) ∧
      (∀ n, n ∈ ch.removed ↔
        ((heldRank reports (i - 1) n).isSome ∧ heldRank reports i n = none)) ∧
      (∀ n rc rp, heldRank reports i n = some rc → heldRank reports (i - 1) n = some rp →
        ((0 < rp - rc → (⟨n, rp - rc⟩ : RankMove) ∈ ch.rank_up) ∧
         (rp - rc < 0 → (⟨n, rp - rc⟩ : RankMove) ∈ ch.rank_down) ∧
         (rp - rc = 0 →
           (∀ e ∈ ch.rank_up, e.name ≠ n) ∧ (∀ e ∈ ch.rank_down, e.name ≠ n))))) := by
  refine ⟨by simp [detect_holding_changes], ?_, ?_⟩
  · intro ch h
    obtain ⟨-, hch⟩ := detect_get? h
    rw [if_pos rfl] at hch
    subst hch
    exact ⟨rfl, rfl, rfl, rfl⟩
  · intro i ch hi h
    obtain ⟨-, hch⟩ := detect_get? h
    rw [if_neg (by omega)] at hch
    subst hch
    exact ⟨fun n => changeAt_new_entries, fun n => changeAt_removed,
      fun n rc rp hc hp => changeAt_rank_moves hc hp⟩

/-- C3 witness: in the 4-month scenario (holdings `{A,B,C}` in months 1-3,
`{B,A,D}` in month 4), the month-4 record has `D` as a new entry, `C`
removed, `B` moved up by 1 and `A` moved down by 1. -/
theorem c3_witness :
    "D" ∈ ((detect_holding_changes changeDemo).getD 3 defaultChange).new_entries ∧
    "C" ∈ ((detect_holding_changes changeDemo).getD 3 defaultChange).removed ∧
    (⟨"B", 1⟩ : RankMove) ∈ ((detect_holding_changes changeDemo).getD 3 defaultChange).rank_up ∧
    (⟨"A", -1⟩ : RankMove) ∈
      ((detect_holding_changes changeDemo).getD 3 defaultChange).rank_down := by
  have h := (c3_holding_changes changeDemo).2.2 3
    ((detect_holding_changes changeDemo).getD 3 defaultChange) (by norm_num) rfl
  refine ⟨(h.1 "D").mpr (by decide), (h.2.1 "C").mpr (by decide), ?_, ?_⟩
  · exact (h.2.2 "B" 1 2 (by decide) (by decide)).1 (by decide)
  · exact (h.2.2 "A" 2 1 (by decide) (by decide)).2.1 (by decide)

/-! ### C2: the description-similarity factor -/

theorem descAspectLoop_eq (cand_name : String) (cand_sectors : List String)
    (policy_text : String) (kws : List String) :
    descAspectLoop cand_name cand_sectors policy_text kws =
      if kws.any (fun kw => (substrB kw cand_name ||
          cand_sectors.any (fun s => substrB kw s)) && substrB kw policy_text)
      then 0.2 else 0 := by
  induction kws with
  | nil => simp [descAspectLoop]
  | cons kw rest ih =>
    by_cases hm : (substrB kw cand_name || cand_sectors.any (fun s => substrB kw s)) = true
    · by_cases hpo : substrB kw policy_text = true
      · simp [descAspectLoop, hm, hpo]
      · simp only [descAspectLoop, hm, if_true, hpo, if_false, ih, List.any_cons]
        simp [hpo, hm]
    · simp only [descAspectLoop, hm, if_false, ih, List.any_cons]
      simp [hm]

theorem descScoreRaw_cons (a : String × List String) (t : List (String × List String))
    (n : String) (s : List String) (p : String) :
    descScoreRaw (a :: t) n s p = descAspectLoop n s p a.2 + descScoreRaw t n s p := by
  simp [descScoreRaw]

theorem descScoreRaw_eq (aspects : List (String × List String)) (cand_name : String)
    (cand_sectors : List String) (policy_text : String) :
    descScoreRaw aspects cand_name cand_sectors policy_text =
      0.2 * (descAspectsMatched aspects cand_name cand_sectors policy_text : ℚ) := by
  induction aspects with
  | nil => simp [descScoreRaw, descAspectsMatched]
  | cons a t ih =>
    rw [descScoreRaw_cons, descAspectLoop_eq, ih]
    unfold descAspectsMatched
    rw [List.filter_cons]
    by_cases hm : (a.2.any (fun kw => (substrB kw cand_name ||
        cand_sectors.any (fun s => substrB kw s)) && substrB kw policy_text)) = true
    · rw [if_pos hm, if_pos hm, List.length_cons]
      push_cast
      ring
    · rw [if_neg hm, if_neg hm]
      norm_num

theorem desc_round_eq (k : ℕ) :
    roundTo 3 (min (0.2 * (k : ℚ)) 1) = min (0.2 * (k : ℚ)) 1 := by
  rcases le_or_lt 1 (0.2 * (k : ℚ)) with h | h
  · rw [min_eq_right h]
    have h1 := roundTo_int 3 1
    push_cast at h1
    exact h1
  · rw [min_eq_left (le_of_lt h)]
    exact roundTo_eq_self (200 * k) (by push_cast; ring)

theorem scoreCandidate_desc (cfg : Config) (tr : List Report) (latest : Report)
    (lt : List (String × ℚ)) (ps : List String) (sa : List (String × ℕ))
    (ch : List String) (hana : List (String × StockStats)) (nm : String) :
    (scoreCandidate cfg tr latest lt ps sa ch hana nm).score_breakdown.description_sim =
      min (0.2 * (descAspectsMatched cfg.evaluation_aspects nm (sectorsOf cfg nm)
        (agetD latest.sections "future_policy" "") : ℚ)) 1 ∧
    (scoreCandidate cfg tr latest lt ps sa ch hana nm).name = nm := by
  constructor
  · show roundTo 3 (min (descScoreRaw cfg.evaluation_aspects nm (sectorsOf cfg nm)
      (agetD latest.sections "future_policy" "")) 1) = _
    rw [descScoreRaw_eq, desc_round_eq]
  · rfl

/-- C2 counterexample: with a single evaluation aspect holding the two
keywords `x` and `y`, a candidate named `xy` and future-policy text `xy`
(both keywords match the name and occur in the policy), the scorer's
`description_sim` is 0.2 — the per-aspect loop `break`s after the first
qualifying keyword — while the claim's per-keyword count demands
0.2 · 2 = 0.4. -/
theorem c2_counterexample :
    (estimate_candidates cfgTwoKw [repTwoKw] 0 [] [] []).length = 1 ∧
    ((estimate_candidates cfgTwoKw [repTwoKw] 0 [] [] []).headD defaultCand).name = "xy" ∧
    ((estimate_candidates cfgTwoKw [repTwoKw] 0 [] [] []).headD
      defaultCand).score_breakdown.description_sim = 0.2 ∧
    claimDescriptionSim cfgTwoKw.evaluation_aspects "xy" (sectorsOf cfgTwoKw "xy") "xy" = 0.4 ∧
    (0.2 : ℚ) ≠ 0.4 := by
  refine ⟨rfl, rfl, ?_, ?_, by norm_num⟩
  · show roundTo 3 (min (descScoreRaw cfgTwoKw.evaluation_aspects "xy"
      (sectorsOf cfgTwoKw "xy") (agetD (latestOf [repTwoKw] 0).sections "future_policy" "")) 1) = 0.2
    rw [descScoreRaw_eq, desc_round_eq]
    rw [show descAspectsMatched cfgTwoKw.evaluation_aspects "xy" (sectorsOf cfgTwoKw "xy")
      (agetD (latestOf [repTwoKw] 0).sections "future_policy" "") = 1 from rfl]
    norm_num
  · unfold claimDescriptionSim
    rw [show ((cfgTwoKw.evaluation_aspects.flatMap Prod.snd).filter (fun kw =>
      (substrB kw "xy" || (sectorsOf cfgTwoKw "xy").any (fun s => substrB kw s)) &&
      substrB kw "xy")).length = 2 from rfl]
    norm_num

/-- C2 amended: for every report list, cutoff and candidate, the
`description_sim` factor score produced by `estimate_candidates` equals 0.2
times the number of evaluation *aspects* containing at least one keyword
that both occurs as a substring of the candidate's name or one of its
reference sectors and occurs in the latest train report's `future_policy`
text, clamped at 1 (at most one 0.2 contribution per aspect, not per
keyword). -/
theorem c2_amended (cfg : Config) (reports : List Report) (cutoff_idx : ℤ)
    (theme_trends : List (String × List TrendPoint))
    (holdings_analysis : List (String × StockStats)) (holding_changes : List ChangeRecord)
    (cand : Candidate)
    (hmem : cand ∈ estimate_candidates cfg reports cutoff_idx theme_trends
      holdings_analysis holding_changes) :
    cand.score_breakdown.description_sim =
      min (0.2 * (descAspectsMatched cfg.evaluation_aspects cand.name
        (sectorsOf cfg cand.name) (policyTextOf reports cutoff_idx) : ℚ)) 1 := by
  unfold estimate_candidates at hmem
  split at hmem
  · cases hmem
  · simp only [mem_sortDesc, List.mem_map] at hmem
    obtain ⟨nm, hnm, he⟩ := hmem
    rw [← he]
    rw [(scoreCandidate_desc _ _ _ _ _ _ _ _ _).2]
    exact (scoreCandidate_desc _ _ _ _ _ _ _ _ _).1

/-- C2 witness (of the amended claim): the `xy` candidate's stored
`description_sim` equals the clamped per-aspect count formula. -/
theorem c2_witness :
    ((estimate_candidates cfgTwoKw [repTwoKw] 0 [] [] []).headD
      defaultCand).score_breakdown.description_sim =
      min (0.2 * (descAspectsMatched cfgTwoKw.evaluation_aspects
        ((estimate_candidates cfgTwoKw [repTwoKw] 0 [] [] []).headD defaultCand).name
        (sectorsOf cfgTwoKw
          ((estimate_candidates cfgTwoKw [repTwoKw] 0 [] [] []).headD defaultCand).name)
        (policyTextOf [repTwoKw] 0) : ℚ)) 1 :=
  c2_amended cfgTwoKw [repTwoKw] 0 [] [] [] _ (List.mem_of_mem_head? rfl)

/-! ### C9: confidence monotonicity -/

theorem confRank_mono {x y : ℚ} (h : x < y) : confRank (confOf x) ≤ confRank (confOf y) := by
  by_cases hy5 : (0.5 : ℚ) ≤ y
  · have hcy : confOf y = "High" := by
      unfold confOf
      rw [if_pos hy5]
    rw [hcy]
    have hx : confOf x = "High" ∨ confOf x = "Medium" ∨ confOf x = "Low" := by
      unfold confOf
      split_ifs <;> simp
    rcases hx with hx | hx | hx <;> rw [hx] <;> decide
  · by_cases hy3 : (0.3 : ℚ) ≤ y
    · have hcy : confOf y = "Medium" := by
        unfold confOf
        rw [if_neg hy5, if_pos hy3]
      have hx5 : ¬ (0.5 : ℚ) ≤ x := by linarith
      rw [hcy]
      by_cases hx3 : (0.3 : ℚ) ≤ x
      · have hcx : confOf x = "Medium" := by
          unfold confOf
          rw [if_neg hx5, if_pos hx3]
        rw [hcx]
      · have hcx : confOf x = "Low" := by
          unfold confOf
          rw [if_neg hx5, if_neg hx3]
        rw [hcx]
        decide
    · have hx5 : ¬ (0.5 : ℚ) ≤ x := by linarith
      have hx3 : ¬ (0.3 : ℚ) ≤ x := by linarith
      have hcx : confOf x = "Low" := by
        unfold confOf
        rw [if_neg hx5, if_neg hx3]
      rw [hcx, show confRank "Low" = 0 from rfl]
      exact Nat.zero_le _

theorem scoreCandidate_conf_le {cfg : Config} {tr : List Report} {latest : Report}
    {lt : List (String × ℚ)} {ps : List String} {sa : List (String × ℕ)}
    {ch : List String} {hana : List (String × StockStats)} {na nb : String}
    (hlt : (scoreCandidate cfg tr latest lt ps sa ch hana nb).total_score <
           (scoreCandidate cfg tr latest lt ps sa ch hana na).total_score) :
    confRank (scoreCandidate cfg tr latest lt ps sa ch hana nb).confidence ≤
      confRank (scoreCandidate cfg tr latest lt ps sa ch hana na).confidence := by
  have hT : totalScoreOf cfg (scoreCandidate cfg tr latest lt ps sa ch hana nb).score_breakdown <
      totalScoreOf cfg (scoreCandidate cfg tr latest lt ps sa ch hana na).score_breakdown :=
    roundTo_lt_reflect 3 hlt
  exact confRank_mono hT

/-- C9.  For every pair of candidates in the output of `estimate_candidates`
on the same inputs, if one's `total_score` strictly exceeds the other's then
its confidence tier (High > Medium > Low, from the fixed thresholds
`total_score ≥ 0.5 → High`, `≥ 0.3 → Medium`, else `Low`) is never lower. -/
theorem c9_confidence_monotone (cfg : Config) (reports : List Report) (cutoff_idx : ℤ)
    (theme_trends : List (String × List TrendPoint))
    (holdings_analysis : List (String × StockStats)) (holding_changes : List ChangeRecord)
    (a b : Candidate)
    (ha : a ∈ estimate_candidates cfg reports cutoff_idx theme_trends
      holdings_analysis holding_changes)
    (hb : b ∈ estimate_candidates cfg reports cutoff_idx theme_trends
      holdings_analysis holding_changes)
    (hlt : b.total_score < a.total_score) :
    confRank b.confidence ≤ confRank a.confidence := by
  by_cases hcond : cutoff_idx < 0 ∨ (reports.length : ℤ) ≤ cutoff_idx
  · simp only [estimate_candidates] at ha
    rw [if_pos hcond] at ha
    cases ha
  · simp only [estimate_candidates] at ha hb
    rw [if_neg hcond] at ha hb
    simp only [mem_sortDesc, List.mem_map] at ha hb
    obtain ⟨na, hna, hea⟩ := ha
    obtain ⟨nb, hnb, heb⟩ := hb
    subst hea
    subst heb
    exact scoreCandidate_conf_le hlt

/-- C9 witness: with the pure past-frequency weighting on a 1-report corpus
holding only `A`, candidate `A` scores 1 (High) and `B` scores 0 (Low); the
higher-scored candidate's tier is not lower. -/
theorem c9_witness :
    ((estimate_candidates cfgFreq [mkRep "2024-01" [(1, "A")]] 0 [] [] []).getD 1
        defaultCand).total_score <
      ((estimate_candidates cfgFreq [mkRep "2024-01" [(1, "A")]] 0 [] [] []).getD 0
        defaultCand).total_score ∧
    confRank ((estimate_candidates cfgFreq [mkRep "2024-01" [(1, "A")]] 0 [] [] []).getD 1
        defaultCand).confidence ≤
      confRank ((estimate_candidates cfgFreq [mkRep "2024-01" [(1, "A")]] 0 [] [] []).getD 0
        defaultCand).confidence := by
  have hltw : ((estimate_candidates cfgFreq [mkRep "2024-01" [(1, "A")]] 0 [] [] []).getD 1
      defaultCand).total_score <
      ((estimate_candidates cfgFreq [mkRep "2024-01" [(1, "A")]] 0 [] [] []).getD 0
        defaultCand).total_score := by
    with_unfolding_all decide
  have hm0 : (estimate_candidates cfgFreq [mkRep "2024-01" [(1, "A")]] 0 [] [] []).get? 0 =
      some ((estimate_candidates cfgFreq [mkRep "2024-01" [(1, "A")]] 0 [] [] []).getD 0
        defaultCand) := by
    with_unfolding_all rfl
  have hm1 : (estimate_candidates cfgFreq [mkRep "2024-01" [(1, "A")]] 0 [] [] []).get? 1 =
      some ((estimate_candidates cfgFreq [mkRep "2024-01" [(1, "A")]] 0 [] [] []).getD 1
        defaultCand) := by
    with_unfolding_all rfl
  exact ⟨hltw, c9_confidence_monotone cfgFreq [mkRep "2024-01" [(1, "A")]] 0 [] [] [] _ _
    (List.get?_mem hm0) (List.get?_mem hm1) hltw⟩

/-! ### C6: backtest cutoff schedule -/

theorem getLastD_take {α : Type} (l : List α) (c : ℕ) (hc : c < l.length) (e : α) :
    (l.take (c + 1)).getLastD e = l.getD c e := by
  rw [List.getLastD_eq_getLast?, List.getLast?_eq_get?, List.length_take]
  have hmin : min (c + 1) l.length - 1 = c := by omega
  rw [hmin, List.get?_take (Nat.lt_succ_self c), List.getD_eq_get?]

theorem afind_map_self {α : Type} {l : List ℕ} {f : ℕ → α} {k : ℕ} {s : α}
    (h : afind (l.map (fun k => (k, f k))) k = some s) : s = f k := by
  unfold afind at h
  rcases Option.map_eq_some'.mp h with ⟨p, hp, hs⟩
  have hmem := List.mem_of_find?_eq_some hp
  have hbeq : p.1 = k := by simpa using List.find?_some hp
  rcases List.mem_map.mp hmem with ⟨k1, hk1, he⟩
  rw [← he] at hbeq hs
  simp only at hbeq hs
  rw [← hs, hbeq]

/-- C6.  For every report list of length `N ≥ minTrainingMonths + 1`,
`run_backtest` returns the success shape and evaluates exactly the cutoffs
`minTrainingMonths .. N-2`: result `i` trains up to report
`minTrainingMonths + i` and predicts report `minTrainingMonths + i + 1`,
there are `N - 1 - minTrainingMonths` of them, and every configured K's
summary reports that count as `total_periods`. -/
theorem c6_backtest_cutoffs (cfg : Config) (reports : List Report)
    (h : cfg.min_training_months + 1 ≤ reports.length) :
    run_backtest cfg reports = .success ((run_backtest cfg reports).summaryList)
      ((run_backtest cfg reports).resultsList) ∧
    (run_backtest cfg reports).resultsList.length =
      reports.length - 1 - cfg.min_training_months ∧
    (∀ i r, (run_backtest cfg reports).resultsList.get? i = some r →
      r.train_until = (reports.getD (cfg.min_training_months + i) emptyReport).report_month ∧
      r.predicted_month =
        (reports.getD (cfg.min_training_months + i + 1) emptyReport).report_month) ∧
    (∀ k ∈ cfg.top_k_values, ∀ s, afind (run_backtest cfg reports).summaryList k = some s →
      s.total_periods = reports.length - 1 - cfg.min_training_months) := by
  have hnot : ¬ reports.length < cfg.min_training_months + 1 := by omega
  have hrb : run_backtest cfg reports = .success
      (cfg.top_k_values.map (fun k => (k, summaryFor
        ((List.range' cfg.min_training_months
          (reports.length - 1 - cfg.min_training_months)).map (periodResultAt cfg reports)) k)))
      ((List.range' cfg.min_training_months
        (reports.length - 1 - cfg.min_training_months)).map (periodResultAt cfg reports)) := by
    simp only [run_backtest]
    rw [if_neg hnot]
  have hres : (run_backtest cfg reports).resultsList =
      (List.range' cfg.min_training_months
        (reports.length - 1 - cfg.min_training_months)).map (periodResultAt cfg reports) := by
    rw [hrb]
    rfl
  have hsum : (run_backtest cfg reports).summaryList =
      cfg.top_k_values.map (fun k => (k, summaryFor
        ((List.range' cfg.min_training_months
          (reports.length - 1 - cfg.min_training_months)).map (periodResultAt cfg reports)) k)) := by
    rw [hrb]
    rfl
  have hlen : (run_backtest cfg reports).resultsList.length =
      reports.length - 1 - cfg.min_training_months := by
    rw [hres, List.length_map, List.length_range']
  refine ⟨by rw [hrb]; rfl, hlen, ?_, ?_⟩
  · intro i r hr
    rw [hres] at hr
    rw [List.get?_map] at hr
    rcases Option.map_eq_some'.mp hr with ⟨j, hj, hfj⟩
    have hjlt : i < reports.length - 1 - cfg.min_training_months := by
      rcases Nat.lt_or_ge i (reports.length - 1 - cfg.min_training_months) with hlt | hge
      · exact hlt
      · rw [List.get?_eq_none.2 (by simpa using hge)] at hj
        cases hj
    rw [List.get?_range' _ _ hjlt] at hj
    have hji : j = cfg.min_training_months + i := by
      injection hj with h1
      omega
    subst hji
    subst hfj
    constructor
    · show ((reports.take (cfg.min_training_months + i + 1)).getLastD emptyReport).report_month = _
      rw [getLastD_take reports (cfg.min_training_months + i) (by omega) emptyReport]
    · rfl
  · intro k hk s hs
    rw [hsum] at hs
    rw [afind_map_self hs]
    show ((List.range' cfg.min_training_months
      (reports.length - 1 - cfg.min_training_months)).map (periodResultAt cfg reports)).length = _
    rw [List.length_map, List.length_range']

/-- C6 witness: `minTrainingMonths = 3` with 5 reports — one period, training
to month 4 and predicting month 5, with `total_periods = 1` for K = 5. -/
theorem c6_witness :
    cfgDemo.min_training_months + 1 ≤ demoReports5.length ∧
    (run_backtest cfgDemo demoReports5).resultsList.length = 1 ∧
    ((run_backtest cfgDemo demoReports5).resultsList.headD
      ⟨"", "", [], [], []⟩).train_until = "2024-04" ∧
    ((run_backtest cfgDemo demoReports5).resultsList.headD
      ⟨"", "", [], [], []⟩).predicted_month = "2024-05" ∧
    ((afind (run_backtest cfgDemo demoReports5).summaryList 5).getD
      defaultSummary).total_periods = 1 := by
  have hlen : cfgDemo.min_training_months + 1 ≤ demoReports5.length := by decide
  have h := c6_backtest_cutoffs cfgDemo demoReports5 hlen
  have hget : (run_backtest cfgDemo demoReports5).resultsList.get? 0 =
      some ((run_backtest cfgDemo demoReports5).resultsList.headD ⟨"", "", [], [], []⟩) := by
    with_unfolding_all rfl
  obtain ⟨ht, hp⟩ := h.2.2.1 0 _ hget
  have hfind : afind (run_backtest cfgDemo demoReports5).summaryList 5 =
      some ((afind (run_backtest cfgDemo demoReports5).summaryList 5).getD defaultSummary) := by
    with_unfolding_all rfl
  refine ⟨hlen, by simpa using h.2.1, ht.trans (by rfl), hp.trans (by rfl), ?_⟩
  have := h.2.2.2 5 (by decide) _ hfind
  simpa using this
